import Mathlib

/-!
Verification of the wordsearch generator (`wordsearch_generator.py`).

A grid is a list of rows, each row a list of cells; a cell holds either a
character or `none` (Python's `None`).  Words are lists of characters.
The Python functions are embedded as pure Lean functions: the in-place
mutation of `insert_word_horizontally` / `insert_word_vertically` becomes
explicit state passing (the functions return the pair of the Python return
value and the grid after the call); the generators become the lists of the
grids they yield (failed placement attempts do not mutate `temp_grid`, and
after every successful attempt `temp_grid` is reset to a fresh copy of the
base grid, so each yielded grid is the base grid with the one word placed);
`random.shuffle` becomes a parameter supplying the shuffled list, and the
solver that draws one shuffle per enumerator invocation is parameterised by
an oracle indexed by the number of shuffles drawn so far.  `None` results
of the solvers become `Option.none`.
-/

namespace Wordsearch

abbrev Cell := Option Char

abbrev Grid := List (List Cell)

abbrev Word := List Char

/-- An anchor as built by `iterate_word_spaces_randomly`: `(x, y, horizontal)`. -/
abbrev Space := Nat × Nat × Bool

/-- Python `create_empty_grid(width, height)`: `[[None] * width for _ in range(height)]`. -/
def create_empty_grid (width height : Nat) : Grid :=
  List.replicate height (List.replicate width none)

/-- Reading `grid[y][x]`; out-of-range reads (a Python `IndexError`) give `none`. -/
def getCell (grid : Grid) (x y : Nat) : Cell :=
  (grid.getD y []).getD x none

/-- Writing `grid[y][x] = c`; out-of-range writes are dropped. -/
def setCell (grid : Grid) (x y : Nat) (c : Char) : Grid :=
  grid.set y ((grid.getD y []).set x (some c))

/-- Python `len(grid[0]) if height > 0 else 0`. -/
def gwidth (grid : Grid) : Nat := (grid.headD []).length

/-- Python `len(grid)`. -/
def gheight (grid : Grid) : Nat := grid.length

/-- First pass of `insert_word_horizontally`: the loop
`for i in range(len(word)): if grid[y][x+i] is not None and grid[y][x+i] != word[i]: return False`,
recursing along the word with the column advancing. -/
def fits_horizontally : Grid → Word → Nat → Nat → Bool
  | _, [], _, _ => true
  | grid, c :: cs, x, y =>
    match getCell grid x y with
    | none => fits_horizontally grid cs (x + 1) y
    | some d => d == c && fits_horizontally grid cs (x + 1) y

/-- Second pass of `insert_word_horizontally`: the loop
`for i in range(len(word)): grid[y][x+i] = word[i]`. -/
def write_horizontally : Grid → Word → Nat → Nat → Grid
  | grid, [], _, _ => grid
  | grid, c :: cs, x, y => write_horizontally (setCell grid x y c) cs (x + 1) y

/-- Python `insert_word_horizontally(grid, word, x, y)`; returns the Python return
value paired with the grid after the call (the check pass mutates nothing, so on
`False` the grid is unchanged). -/
def insert_word_horizontally (grid : Grid) (word : Word) (x y : Nat) : Bool × Grid :=
  if fits_horizontally grid word x y then (true, write_horizontally grid word x y)
  else (false, grid)

/-- First pass of `insert_word_vertically`: as the horizontal one, with the row advancing. -/
def fits_vertically : Grid → Word → Nat → Nat → Bool
  | _, [], _, _ => true
  | grid, c :: cs, x, y =>
    match getCell grid x y with
    | none => fits_vertically grid cs x (y + 1)
    | some d => d == c && fits_vertically grid cs x (y + 1)

/-- Second pass of `insert_word_vertically`: `for i in range(len(word)): grid[y+i][x] = word[i]`. -/
def write_vertically : Grid → Word → Nat → Nat → Grid
  | grid, [], _, _ => grid
  | grid, c :: cs, x, y => write_vertically (setCell grid x y c) cs x (y + 1)

/-- Python `insert_word_vertically(grid, word, x, y)`. -/
def insert_word_vertically (grid : Grid) (word : Word) (x y : Nat) : Bool × Grid :=
  if fits_vertically grid word x y then (true, write_vertically grid word x y)
  else (false, grid)

/-- The branch `if horizontal: insert_word_horizontally(...) else: insert_word_vertically(...)`
in the yield loop of `iterate_word_spaces_randomly`. -/
def insert_space (grid : Grid) (word : Word) : Space → Bool × Grid
  | (x, y, true) => insert_word_horizontally grid word x y
  | (x, y, false) => insert_word_vertically grid word x y

/-- One attempt of the yield loop: the yielded grid if the word fits, else nothing. -/
def attempt_space (grid : Grid) (word : Word) (s : Space) : Option Grid :=
  if (insert_space grid word s).1 then some (insert_space grid word s).2 else none

/-- Python `iterate_word_spaces(grid, word)` as the list of grids the generator
yields: the horizontal loops `for x in range(width - len(word) + 1): for y in
range(height)` followed by the vertical loops `for y in range(height - len(word) + 1):
for x in range(width)`, yielding the base grid with the word placed whenever the
placement succeeds.  Python's `range` of a negative bound is empty; `Nat`
subtraction gives the same ranges written as `w + 1 - len`. -/
def iterate_word_spaces (grid : Grid) (word : Word) : List Grid :=
  ((List.range (gwidth grid + 1 - word.length)).flatMap fun x =>
    (List.range (gheight grid)).filterMap fun y => attempt_space grid word (x, y, true))
  ++ ((List.range (gheight grid + 1 - word.length)).flatMap fun y =>
    (List.range (gwidth grid)).filterMap fun x => attempt_space grid word (x, y, false))

/-- The `spaces` list built by `iterate_word_spaces_randomly` before shuffling:
horizontal anchors `(x, y, True)` x-major y-minor, then vertical anchors
`(x, y, False)` y-major x-minor. -/
def spaces_list (grid : Grid) (word : Word) : List Space :=
  ((List.range (gwidth grid + 1 - word.length)).flatMap fun x =>
    (List.range (gheight grid)).map fun y => (x, y, true))
  ++ ((List.range (gheight grid + 1 - word.length)).flatMap fun y =>
    (List.range (gwidth grid)).map fun x => (x, y, false))

/-- Python `iterate_word_spaces_randomly(grid, word)` as the list of grids the
generator yields, parameterised by the outcome `shuffled` of `shuffle(spaces)`:
the yield loop attempts each shuffled anchor against a fresh copy of the base
grid and yields on success. -/
def iterate_word_spaces_randomly (grid : Grid) (word : Word) (shuffled : List Space) :
    List Grid :=
  shuffled.filterMap (attempt_space grid word)

/-- Python `insert_words(grid, words)`: base case returns the grid; otherwise the
first non-`None` recursive result over the candidates of `iterate_word_spaces`,
else `None`. -/
def insert_words : Grid → List Word → Option Grid
  | grid, [] => some grid
  | grid, w :: ws => (iterate_word_spaces grid w).findSome? fun g => insert_words g ws

mutual

/-- Python `insert_words_randomly(grid, words)`, parameterised by a shuffle
oracle: `oracle n l` is the outcome of the `n`-th call of `shuffle` on the list
`l`, and the `Nat` argument and result thread the count of shuffles drawn so
far through the call tree. -/
def insert_words_randomly (oracle : Nat → List Space → List Space) :
    Nat → Grid → List Word → Option Grid × Nat
  | n, grid, [] => (some grid, n)
  | n, grid, w :: ws =>
    insert_words_randomly_loop oracle
      (iterate_word_spaces_randomly grid w (oracle n (spaces_list grid w))) (n + 1) ws
termination_by n grid ws => (ws.length, 0, 0)

/-- The `for temp_grid in iterate_word_spaces_randomly(...)` loop of
`insert_words_randomly`: return the first non-`None` recursive result, else `None`. -/
def insert_words_randomly_loop (oracle : Nat → List Space → List Space) :
    List Grid → Nat → List Word → Option Grid × Nat
  | [], n, _ => (none, n)
  | g :: gs, n, ws =>
    match insert_words_randomly oracle n g ws with
    | (some r, n') => (some r, n')
    | (none, n') => insert_words_randomly_loop oracle gs n' ws
termination_by gs n ws => (ws.length, 1, gs.length)

end

/-- The grid invariant of the spec's data model: all rows have length `W`. -/
def Rect (grid : Grid) : Prop := ∀ row ∈ grid, row.length = gwidth grid

/-- All cells of the grid are unset. -/
def AllEmpty (grid : Grid) : Prop := ∀ row ∈ grid, ∀ c ∈ row, c = none

/-- The anchor's footprint lies within the grid bounds. -/
def inBoundsSpace (grid : Grid) (word : Word) : Space → Prop
  | (x, y, true) => x + word.length ≤ gwidth grid ∧ y < gheight grid
  | (x, y, false) => y + word.length ≤ gheight grid ∧ x < gwidth grid

/-- The `i`-th cell of the footprint of an anchor. -/
def cellOf : Space → Nat → Nat × Nat
  | (x, y, true), i => (x + i, y)
  | (x, y, false), i => (x, y + i)

/-- Cell `(a, b)` lies in the footprint of the anchor. -/
def covers (word : Word) : Space → Nat → Nat → Prop
  | (x, y, true), a, b => b = y ∧ x ≤ a ∧ a < x + word.length
  | (x, y, false), a, b => a = x ∧ y ≤ b ∧ b < y + word.length

/-- The word's character at footprint cell `(a, b)`. -/
def charAt (word : Word) : Space → Nat → Nat → Char
  | (x, _, true), a, _ => word.getD (a - x) 'a'
  | (_, y, false), _, b => word.getD (b - y) 'a'

/-- The word's characters occupy the footprint of the anchor in the grid. -/
def placedAt (grid : Grid) (word : Word) : Space → Prop
  | (x, y, true) => ∀ i < word.length, getCell grid (x + i) y = some (word.getD i 'a')
  | (x, y, false) => ∀ i < word.length, getCell grid x (y + i) = some (word.getD i 'a')

instance (grid : Grid) (word : Word) : ∀ s, Decidable (inBoundsSpace grid word s)
  | (_, _, true) => inferInstanceAs (Decidable (_ ∧ _))
  | (_, _, false) => inferInstanceAs (Decidable (_ ∧ _))

instance (word : Word) : ∀ (s : Space) (a b : Nat), Decidable (covers word s a b)
  | (_, _, true), _, _ => inferInstanceAs (Decidable (_ ∧ _ ∧ _))
  | (_, _, false), _, _ => inferInstanceAs (Decidable (_ ∧ _ ∧ _))

instance (grid : Grid) (word : Word) : ∀ s, Decidable (placedAt grid word s)
  | (_, _, true) => inferInstanceAs (Decidable (∀ i < word.length, _ = _))
  | (_, _, false) => inferInstanceAs (Decidable (∀ i < word.length, _ = _))

instance (grid : Grid) : Decidable (Rect grid) :=
  inferInstanceAs (Decidable (∀ row ∈ grid, _ = _))

instance (grid : Grid) : Decidable (AllEmpty grid) :=
  inferInstanceAs (Decidable (∀ row ∈ grid, ∀ c ∈ row, _ = _))

/-- The anchor enumeration order as the spec words it: horizontal anchors with
`x` from `0` to `W - len(word)` inclusive and, for each `x`, `y` from `0` to
`H - 1`, followed by vertical anchors with `y` from `0` to `H - len(word)`
inclusive and, for each `y`, `x` from `0` to `W - 1`; no horizontal anchors
when `len(word) > W` and no vertical ones when `len(word) > H`. -/
def specAnchors (grid : Grid) (word : Word) : List Space :=
  ((if word.length ≤ gwidth grid then List.range (gwidth grid - word.length + 1) else
      []).flatMap fun x => (List.range (gheight grid)).map fun y => (x, y, true))
  ++ ((if word.length ≤ gheight grid then List.range (gheight grid - word.length + 1) else
      []).flatMap fun y => (List.range (gwidth grid)).map fun x => (x, y, false))

theorem headD_eq_getD_zero {α : Type} (l : List α) (d : α) : l.headD d = l.getD 0 d := by
  cases l <;> rfl

theorem gheight_setCell (g : Grid) (x y : Nat) (c : Char) :
    gheight (setCell g x y c) = gheight g := by
  simp [gheight, setCell]

theorem rowlen_setCell (g : Grid) (x y : Nat) (c : Char) (b : Nat) :
    ((setCell g x y c).getD b []).length = (g.getD b []).length := by
  unfold setCell
  rcases Nat.lt_or_ge y g.length with hy | hy
  · rcases eq_or_ne y b with rfl | hne
    · rw [List.getD_eq_getElem?_getD, List.getElem?_set_self hy]
      rw [List.getD_eq_getElem?_getD]
      simp [List.getElem?_eq_getElem hy]
    · rw [List.getD_eq_getElem?_getD, List.getElem?_set_ne hne, ← List.getD_eq_getElem?_getD]
  · rw [List.set_eq_of_length_le hy]

theorem gwidth_setCell (g : Grid) (x y : Nat) (c : Char) :
    gwidth (setCell g x y c) = gwidth g := by
  unfold gwidth
  rw [headD_eq_getD_zero, headD_eq_getD_zero]
  exact rowlen_setCell g x y c 0

theorem getCell_setCell (g : Grid) (x y : Nat) (c : Char) (a b : Nat) :
    getCell (setCell g x y c) a b =
      if a = x ∧ b = y ∧ y < gheight g ∧ x < (g.getD y []).length then some c
      else getCell g a b := by
  unfold getCell setCell gheight
  rcases eq_or_ne y b with rfl | hyb
  · rcases Nat.lt_or_ge y g.length with hy | hy
    · rw [List.getD_eq_getElem?_getD (g.set y _), List.getElem?_set_self hy]
      simp only [Option.getD_some]
      rcases eq_or_ne x a with rfl | hxa
      · rcases Nat.lt_or_ge x (g.getD y []).length with hx | hx
        · rw [List.getD_eq_getElem?_getD, List.getElem?_set_self hx]
          rw [if_pos (show x = x ∧ True ∧ y < List.length g ∧ x < (List.getD g y []).length from
            ⟨rfl, trivial, hy, hx⟩)]
          rfl
        · rw [List.set_eq_of_length_le hx]
          simp only [and_true, true_and]
          rw [if_neg (by omega)]
      · rw [List.getD_eq_getElem?_getD, List.getElem?_set_ne (by omega),
          ← List.getD_eq_getElem?_getD]
        rw [if_neg (by intro h; exact hxa h.1.symm)]
    · rw [List.set_eq_of_length_le hy]
      rw [if_neg (by omega)]
  · rw [List.getD_eq_getElem?_getD (g.set y _), List.getElem?_set_ne hyb,
      ← List.getD_eq_getElem?_getD]
    rw [if_neg (by intro h; exact hyb h.2.1.symm)]

theorem getCell_setCell_ne (g : Grid) (x y : Nat) (c : Char) (a b : Nat)
    (h : a ≠ x ∨ b ≠ y) :
    getCell (setCell g x y c) a b = getCell g a b := by
  rw [getCell_setCell, if_neg]
  rintro ⟨h1, h2, -⟩
  rcases h with h | h
  · exact h h1
  · exact h h2

theorem getCell_setCell_self (g : Grid) (x y : Nat) (c : Char)
    (hy : y < gheight g) (hx : x < (g.getD y []).length) :
    getCell (setCell g x y c) x y = some c := by
  rw [getCell_setCell, if_pos ⟨rfl, rfl, hy, hx⟩]

theorem gheight_write_horizontally (w : Word) (g : Grid) (x y : Nat) :
    gheight (write_horizontally g w x y) = gheight g := by
  induction w generalizing g x with
  | nil => rfl
  | cons c cs ih => rw [write_horizontally, ih, gheight_setCell]

theorem rowlen_write_horizontally (w : Word) (g : Grid) (x y b : Nat) :
    ((write_horizontally g w x y).getD b []).length = (g.getD b []).length := by
  induction w generalizing g x with
  | nil => rfl
  | cons c cs ih => rw [write_horizontally, ih, rowlen_setCell]

theorem gwidth_write_horizontally (w : Word) (g : Grid) (x y : Nat) :
    gwidth (write_horizontally g w x y) = gwidth g := by
  unfold gwidth
  rw [headD_eq_getD_zero, headD_eq_getD_zero]
  exact rowlen_write_horizontally w g x y 0

theorem gheight_write_vertically (w : Word) (g : Grid) (x y : Nat) :
    gheight (write_vertically g w x y) = gheight g := by
  induction w generalizing g y with
  | nil => rfl
  | cons c cs ih => rw [write_vertically, ih, gheight_setCell]

theorem rowlen_write_vertically (w : Word) (g : Grid) (x y b : Nat) :
    ((write_vertically g w x y).getD b []).length = (g.getD b []).length := by
  induction w generalizing g y with
  | nil => rfl
  | cons c cs ih => rw [write_vertically, ih, rowlen_setCell]

theorem gwidth_write_vertically (w : Word) (g : Grid) (x y : Nat) :
    gwidth (write_vertically g w x y) = gwidth g := by
  unfold gwidth
  rw [headD_eq_getD_zero, headD_eq_getD_zero]
  exact rowlen_write_vertically w g x y 0

theorem getCell_write_horizontally_frame (w : Word) (g : Grid) (x y a b : Nat)
    (h : ¬(b = y ∧ x ≤ a ∧ a < x + w.length)) :
    getCell (write_horizontally g w x y) a b = getCell g a b := by
  induction w generalizing g x with
  | nil => rfl
  | cons c cs ih =>
    rw [write_horizontally, ih]
    · exact getCell_setCell_ne g x y c a b (by by_cases hb : b = y <;> simp_all <;> omega)
    · simp only [List.length_cons] at h
      intro hc
      exact h ⟨hc.1, by omega, by omega⟩

theorem getCell_write_vertically_frame (w : Word) (g : Grid) (x y a b : Nat)
    (h : ¬(a = x ∧ y ≤ b ∧ b < y + w.length)) :
    getCell (write_vertically g w x y) a b = getCell g a b := by
  induction w generalizing g y with
  | nil => rfl
  | cons c cs ih =>
    rw [write_vertically, ih]
    · exact getCell_setCell_ne g x y c a b (by by_cases ha : a = x <;> simp_all <;> omega)
    · simp only [List.length_cons] at h
      intro hc
      exact h ⟨hc.1, by omega, by omega⟩

theorem getCell_write_horizontally_covered (w : Word) (g : Grid) (x y i : Nat)
    (hy : y < gheight g) (hx : x + w.length ≤ (g.getD y []).length) (hi : i < w.length) :
    getCell (write_horizontally g w x y) (x + i) y = some (w.getD i 'a') := by
  induction w generalizing g x i with
  | nil => exact absurd hi (by simp)
  | cons c cs ih =>
    rw [write_horizontally]
    match i with
    | 0 =>
      rw [getCell_write_horizontally_frame cs _ (x + 1) y (x + 0) y (by omega)]
      simpa using getCell_setCell_self g x y c hy (by simp only [List.length_cons] at hx; omega)
    | Nat.succ j =>
      have hxj : x + (j + 1) = (x + 1) + j := by omega
      rw [hxj]
      have := ih (setCell g x y c) (x + 1) j
        (by rwa [gheight_setCell])
        (by rw [rowlen_setCell]; simp only [List.length_cons] at hx; omega)
        (by simp only [List.length_cons] at hi; omega)
      simpa using this

theorem getCell_write_vertically_covered (w : Word) (g : Grid) (x y i : Nat)
    (hy : y + w.length ≤ gheight g) (hx : ∀ b, b < gheight g → x < (g.getD b []).length)
    (hi : i < w.length) :
    getCell (write_vertically g w x y) x (y + i) = some (w.getD i 'a') := by
  induction w generalizing g y i with
  | nil => exact absurd hi (by simp)
  | cons c cs ih =>
    rw [write_vertically]
    match i with
    | 0 =>
      rw [getCell_write_vertically_frame cs _ x (y + 1) x (y + 0) (by omega)]
      have hylt : y < gheight g := by simp only [List.length_cons] at hy; omega
      simpa using getCell_setCell_self g x y c hylt (hx y hylt)
    | Nat.succ j =>
      have hyj : y + (j + 1) = (y + 1) + j := by omega
      rw [hyj]
      have := ih (setCell g x y c) (y + 1) j
        (by rw [gheight_setCell]; simp only [List.length_cons] at hy; omega)
        (by intro b hb; rw [rowlen_setCell]; exact hx b (by rwa [gheight_setCell] at hb))
        (by simp only [List.length_cons] at hi; omega)
      simpa using this

theorem fits_horizontally_iff (w : Word) (g : Grid) (x y : Nat) :
    fits_horizontally g w x y = true ↔
      ∀ i < w.length, getCell g (x + i) y = none ∨ getCell g (x + i) y = some (w.getD i 'a') := by
  induction w generalizing x with
  | nil => simp [fits_horizontally]
  | cons c cs ih =>
    rw [fits_horizontally]
    rcases hgc : getCell g x y with _ | d
    · simp only [hgc]
      constructor
      · intro hf i hi
        match i, hi with
        | 0, _ =>
          left
          simpa using hgc
        | Nat.succ j, hj =>
          have hj' : j < cs.length := by simp only [List.length_cons] at hj; omega
          have := (ih (x + 1)).mp hf j hj'
          rw [show x + (j + 1) = (x + 1) + j from by omega]
          simpa using this
      · intro hall
        apply (ih (x + 1)).mpr
        intro j hj
        have := hall (j + 1) (by simp only [List.length_cons]; omega)
        rw [show x + (j + 1) = (x + 1) + j from by omega] at this
        simpa using this
    · simp only [hgc, Bool.and_eq_true, beq_iff_eq]
      constructor
      · rintro ⟨hdc, hf⟩ i hi
        match i, hi with
        | 0, _ =>
          right
          simp only [Nat.add_zero, hgc, List.getD_cons_zero, hdc]
        | Nat.succ j, hj =>
          have hj' : j < cs.length := by simp only [List.length_cons] at hj; omega
          have := (ih (x + 1)).mp hf j hj'
          rw [show x + (j + 1) = (x + 1) + j from by omega]
          simpa using this
      · intro hall
        refine ⟨?_, ?_⟩
        · have h0 := hall 0 (by simp)
          simp only [Nat.add_zero, hgc, List.getD_cons_zero] at h0
          rcases h0 with h | h
          · exact absurd h (by simp)
          · exact (Option.some_injective _ h)
        · apply (ih (x + 1)).mpr
          intro j hj
          have := hall (j + 1) (by simp only [List.length_cons]; omega)
          rw [show x + (j + 1) = (x + 1) + j from by omega] at this
          simpa using this

theorem fits_vertically_iff (w : Word) (g : Grid) (x y : Nat) :
    fits_vertically g w x y = true ↔
      ∀ i < w.length, getCell g x (y + i) = none ∨ getCell g x (y + i) = some (w.getD i 'a') := by
  induction w generalizing y with
  | nil => simp [fits_vertically]
  | cons c cs ih =>
    rw [fits_vertically]
    rcases hgc : getCell g x y with _ | d
    · simp only [hgc]
      constructor
      · intro hf i hi
        match i, hi with
        | 0, _ =>
          left
          simpa using hgc
        | Nat.succ j, hj =>
          have hj' : j < cs.length := by simp only [List.length_cons] at hj; omega
          have := (ih (y + 1)).mp hf j hj'
          rw [show y + (j + 1) = (y + 1) + j from by omega]
          simpa using this
      · intro hall
        apply (ih (y + 1)).mpr
        intro j hj
        have := hall (j + 1) (by simp only [List.length_cons]; omega)
        rw [show y + (j + 1) = (y + 1) + j from by omega] at this
        simpa using this
    · simp only [hgc, Bool.and_eq_true, beq_iff_eq]
      constructor
      · rintro ⟨hdc, hf⟩ i hi
        match i, hi with
        | 0, _ =>
          right
          simp only [Nat.add_zero, hgc, List.getD_cons_zero, hdc]
        | Nat.succ j, hj =>
          have hj' : j < cs.length := by simp only [List.length_cons] at hj; omega
          have := (ih (y + 1)).mp hf j hj'
          rw [show y + (j + 1) = (y + 1) + j from by omega]
          simpa using this
      · intro hall
        refine ⟨?_, ?_⟩
        · have h0 := hall 0 (by simp)
          simp only [Nat.add_zero, hgc, List.getD_cons_zero] at h0
          rcases h0 with h | h
          · exact absurd h (by simp)
          · exact (Option.some_injective _ h)
        · apply (ih (y + 1)).mpr
          intro j hj
          have := hall (j + 1) (by simp only [List.length_cons]; omega)
          rw [show y + (j + 1) = (y + 1) + j from by omega] at this
          simpa using this

theorem insert_word_horizontally_fst (g : Grid) (w : Word) (x y : Nat) :
    (insert_word_horizontally g w x y).1 = fits_horizontally g w x y := by
  unfold insert_word_horizontally
  split
  · simp_all
  · simp_all

theorem insert_word_vertically_fst (g : Grid) (w : Word) (x y : Nat) :
    (insert_word_vertically g w x y).1 = fits_vertically g w x y := by
  unfold insert_word_vertically
  split
  · simp_all
  · simp_all

theorem insert_word_horizontally_snd_of_fits (g : Grid) (w : Word) (x y : Nat)
    (h : fits_horizontally g w x y = true) :
    (insert_word_horizontally g w x y).2 = write_horizontally g w x y := by
  unfold insert_word_horizontally
  rw [if_pos h]

theorem insert_word_vertically_snd_of_fits (g : Grid) (w : Word) (x y : Nat)
    (h : fits_vertically g w x y = true) :
    (insert_word_vertically g w x y).2 = write_vertically g w x y := by
  unfold insert_word_vertically
  rw [if_pos h]

theorem insert_space_snd_of_false (g : Grid) (w : Word) (s : Space)
    (h : (insert_space g w s).1 = false) : (insert_space g w s).2 = g := by
  rcases s with ⟨x, y, ori⟩
  cases ori
  · show (insert_word_vertically g w x y).2 = g
    rw [show insert_space g w (x, y, false) = insert_word_vertically g w x y from rfl,
      insert_word_vertically_fst] at h
    unfold insert_word_vertically
    rw [if_neg (by simp [h])]
  · show (insert_word_horizontally g w x y).2 = g
    rw [show insert_space g w (x, y, true) = insert_word_horizontally g w x y from rfl,
      insert_word_horizontally_fst] at h
    unfold insert_word_horizontally
    rw [if_neg (by simp [h])]

theorem insert_space_fst_iff (g : Grid) (w : Word) (s : Space) :
    (insert_space g w s).1 = true ↔
      ∀ i < w.length, getCell g (cellOf s i).1 (cellOf s i).2 = none ∨
        getCell g (cellOf s i).1 (cellOf s i).2 = some (w.getD i 'a') := by
  rcases s with ⟨x, y, ori⟩
  cases ori
  · rw [show insert_space g w (x, y, false) = insert_word_vertically g w x y from rfl,
      insert_word_vertically_fst]
    exact fits_vertically_iff w g x y
  · rw [show insert_space g w (x, y, true) = insert_word_horizontally g w x y from rfl,
      insert_word_horizontally_fst]
    exact fits_horizontally_iff w g x y

theorem insert_space_fst_false_iff (g : Grid) (w : Word) (s : Space) :
    (insert_space g w s).1 = false ↔
      ∃ i < w.length, ∃ d, getCell g (cellOf s i).1 (cellOf s i).2 = some d ∧
        d ≠ w.getD i 'a' := by
  rw [show ((insert_space g w s).1 = false) ↔ ¬((insert_space g w s).1 = true) from by simp]
  rw [insert_space_fst_iff]
  constructor
  · intro h
    push_neg at h
    obtain ⟨i, hi, h1, h2⟩ := h
    rcases hcell : getCell g (cellOf s i).1 (cellOf s i).2 with _ | d
    · exact absurd hcell h1
    · exact ⟨i, hi, d, hcell, fun hd => h2 (by rw [hcell, hd])⟩
  · rintro ⟨i, hi, d, hd, hne⟩ hall
    rcases hall i hi with h | h
    · rw [hd] at h
      simp at h
    · rw [hd] at h
      exact hne (Option.some_injective _ h)

theorem gheight_insert_space_snd (g : Grid) (w : Word) (s : Space) :
    gheight (insert_space g w s).2 = gheight g := by
  rcases s with ⟨x, y, ori⟩
  cases ori
  · show gheight (insert_word_vertically g w x y).2 = gheight g
    unfold insert_word_vertically
    split
    · exact gheight_write_vertically w g x y
    · rfl
  · show gheight (insert_word_horizontally g w x y).2 = gheight g
    unfold insert_word_horizontally
    split
    · exact gheight_write_horizontally w g x y
    · rfl

theorem rowlen_insert_space_snd (g : Grid) (w : Word) (s : Space) (b : Nat) :
    (((insert_space g w s).2).getD b []).length = (g.getD b []).length := by
  rcases s with ⟨x, y, ori⟩
  cases ori
  · show ((insert_word_vertically g w x y).2.getD b []).length = _
    unfold insert_word_vertically
    split
    · exact rowlen_write_vertically w g x y b
    · rfl
  · show ((insert_word_horizontally g w x y).2.getD b []).length = _
    unfold insert_word_horizontally
    split
    · exact rowlen_write_horizontally w g x y b
    · rfl

theorem gwidth_insert_space_snd (g : Grid) (w : Word) (s : Space) :
    gwidth (insert_space g w s).2 = gwidth g := by
  unfold gwidth
  rw [headD_eq_getD_zero, headD_eq_getD_zero]
  exact rowlen_insert_space_snd g w s 0

theorem rect_iff (g : Grid) :
    Rect g ↔ ∀ b, b < gheight g → (g.getD b []).length = gwidth g := by
  constructor
  · intro h b hb
    rw [List.getD_eq_getElem?_getD, List.getElem?_eq_getElem hb]
    exact h _ (List.getElem_mem hb)
  · intro h row hrow
    obtain ⟨b, hb, rfl⟩ := List.mem_iff_getElem.mp hrow
    have := h b hb
    rwa [List.getD_eq_getElem?_getD, List.getElem?_eq_getElem hb] at this

theorem rect_insert_space_snd (g : Grid) (w : Word) (s : Space) (hrect : Rect g) :
    Rect (insert_space g w s).2 := by
  rw [rect_iff] at hrect ⊢
  intro b hb
  rw [rowlen_insert_space_snd, gwidth_insert_space_snd]
  exact hrect b (by rwa [gheight_insert_space_snd] at hb)

theorem covers_iff (w : Word) (s : Space) (a b : Nat) :
    covers w s a b ↔ ∃ i < w.length, cellOf s i = (a, b) := by
  rcases s with ⟨x, y, ori⟩
  cases ori
  · show (a = x ∧ y ≤ b ∧ b < y + w.length) ↔ ∃ i < w.length, (x, y + i) = (a, b)
    constructor
    · rintro ⟨rfl, h1, h2⟩
      exact ⟨b - y, by omega, by rw [Prod.mk.injEq]; omega⟩
    · rintro ⟨i, hi, heq⟩
      rw [Prod.mk.injEq] at heq
      omega
  · show (b = y ∧ x ≤ a ∧ a < x + w.length) ↔ ∃ i < w.length, (x + i, y) = (a, b)
    constructor
    · rintro ⟨rfl, h1, h2⟩
      exact ⟨a - x, by omega, by rw [Prod.mk.injEq]; omega⟩
    · rintro ⟨i, hi, heq⟩
      rw [Prod.mk.injEq] at heq
      omega

theorem placedAt_insert_space (g : Grid) (w : Word) (s : Space) (hrect : Rect g)
    (hin : inBoundsSpace g w s) (h : (insert_space g w s).1 = true) :
    placedAt (insert_space g w s).2 w s := by
  rcases s with ⟨x, y, ori⟩
  cases ori
  · obtain ⟨hy, hx⟩ : y + w.length ≤ gheight g ∧ x < gwidth g := hin
    rw [show insert_space g w (x, y, false) = insert_word_vertically g w x y from rfl,
      insert_word_vertically_fst] at h
    show ∀ i < w.length, getCell (insert_space g w (x, y, false)).2 x (y + i) =
      some (w.getD i 'a')
    intro i hi
    rw [show (insert_space g w (x, y, false)).2 = (insert_word_vertically g w x y).2 from rfl,
      insert_word_vertically_snd_of_fits g w x y h]
    exact getCell_write_vertically_covered w g x y i hy
      (fun b hb => by rw [(rect_iff g).mp hrect b hb]; exact hx) hi
  · obtain ⟨hx, hy⟩ : x + w.length ≤ gwidth g ∧ y < gheight g := hin
    rw [show insert_space g w (x, y, true) = insert_word_horizontally g w x y from rfl,
      insert_word_horizontally_fst] at h
    show ∀ i < w.length, getCell (insert_space g w (x, y, true)).2 (x + i) y =
      some (w.getD i 'a')
    intro i hi
    rw [show (insert_space g w (x, y, true)).2 = (insert_word_horizontally g w x y).2 from rfl,
      insert_word_horizontally_snd_of_fits g w x y h]
    exact getCell_write_horizontally_covered w g x y i hy
      (by rw [(rect_iff g).mp hrect y hy]; exact hx) hi

theorem getCell_insert_space_frame (g : Grid) (w : Word) (s : Space) (a b : Nat)
    (h : ¬ covers w s a b) :
    getCell (insert_space g w s).2 a b = getCell g a b := by
  rcases s with ⟨x, y, ori⟩
  cases ori
  · show getCell (insert_word_vertically g w x y).2 a b = getCell g a b
    unfold insert_word_vertically
    split
    · exact getCell_write_vertically_frame w g x y a b h
    · rfl
  · show getCell (insert_word_horizontally g w x y).2 a b = getCell g a b
    unfold insert_word_horizontally
    split
    · exact getCell_write_horizontally_frame w g x y a b h
    · rfl

theorem charAt_eq_of_cellOf (w : Word) (s : Space) (i : Nat) (a b : Nat)
    (heq : cellOf s i = (a, b)) : charAt w s a b = w.getD i 'a' := by
  rcases s with ⟨x, y, ori⟩
  cases ori
  · simp only [cellOf, Prod.mk.injEq] at heq
    obtain ⟨h1, h2⟩ := heq
    show w.getD (b - y) 'a' = w.getD i 'a'
    have : b - y = i := by omega
    rw [this]
  · simp only [cellOf, Prod.mk.injEq] at heq
    obtain ⟨h1, h2⟩ := heq
    show w.getD (a - x) 'a' = w.getD i 'a'
    have : a - x = i := by omega
    rw [this]

theorem getCell_insert_space_covered (g : Grid) (w : Word) (s : Space) (a b : Nat)
    (hrect : Rect g) (hin : inBoundsSpace g w s) (ht : (insert_space g w s).1 = true)
    (hcov : covers w s a b) :
    getCell (insert_space g w s).2 a b = some (charAt w s a b) := by
  obtain ⟨i, hi, hcell⟩ := (covers_iff w s a b).mp hcov
  have hplaced := placedAt_insert_space g w s hrect hin ht
  rw [charAt_eq_of_cellOf w s i a b hcell]
  rcases s with ⟨x, y, ori⟩
  cases ori
  · rw [Prod.mk.injEq] at hcell
    rw [← hcell.1, ← hcell.2]
    exact hplaced i hi
  · rw [Prod.mk.injEq] at hcell
    rw [← hcell.1, ← hcell.2]
    exact hplaced i hi

theorem getCell_insert_space_mono (g : Grid) (w : Word) (s : Space) (a b : Nat) (c : Char)
    (hrect : Rect g) (hin : inBoundsSpace g w s) (h : getCell g a b = some c) :
    getCell (insert_space g w s).2 a b = some c := by
  by_cases ht : (insert_space g w s).1 = true
  · by_cases hcov : covers w s a b
    · obtain ⟨i, hi, hcell⟩ := (covers_iff w s a b).mp hcov
      have := getCell_insert_space_covered g w s a b hrect hin ht hcov
      rw [this, charAt_eq_of_cellOf w s i a b hcell]
      rcases (insert_space_fst_iff g w s).mp ht i hi with hc | hc
      · rw [hcell] at hc
        rw [h] at hc
        simp at hc
      · rw [hcell] at hc
        rw [h] at hc
        exact hc.symm
    · rw [getCell_insert_space_frame g w s a b hcov]
      exact h
  · rw [insert_space_snd_of_false g w s (by simpa using ht)]
    exact h

theorem iterate_word_spaces_eq (g : Grid) (w : Word) :
    iterate_word_spaces g w = (spaces_list g w).filterMap (attempt_space g w) := by
  unfold iterate_word_spaces spaces_list
  rw [List.filterMap_append]
  congr 1
  · rw [List.filterMap_flatMap]
    apply List.flatMap_congr
    intro x _
    rw [List.filterMap_map]
    rfl
  · rw [List.filterMap_flatMap]
    apply List.flatMap_congr
    intro y _
    rw [List.filterMap_map]
    rfl

theorem mem_spaces_list (g : Grid) (w : Word) (x y : Nat) (ori : Bool) :
    (x, y, ori) ∈ spaces_list g w ↔
      (ori = true ∧ x < gwidth g + 1 - w.length ∧ y < gheight g) ∨
      (ori = false ∧ y < gheight g + 1 - w.length ∧ x < gwidth g) := by
  unfold spaces_list
  rw [List.mem_append]
  simp only [List.mem_flatMap, List.mem_map, List.mem_range, Prod.mk.injEq]
  constructor
  · rintro (⟨a, ha, b, hb, h1, h2, h3⟩ | ⟨a, ha, b, hb, h1, h2, h3⟩)
    · exact Or.inl ⟨h3.symm, by omega, by omega⟩
    · exact Or.inr ⟨h3.symm, by omega, by omega⟩
  · rintro (⟨rfl, hx, hy⟩ | ⟨rfl, hy, hx⟩)
    · exact Or.inl ⟨x, hx, y, hy, rfl, rfl, rfl⟩
    · exact Or.inr ⟨y, hy, x, hx, rfl, rfl, rfl⟩

theorem inBoundsSpace_of_mem_spaces_list (g : Grid) (w : Word) (s : Space)
    (hs : s ∈ spaces_list g w) : inBoundsSpace g w s := by
  rcases s with ⟨x, y, ori⟩
  rw [mem_spaces_list] at hs
  cases ori
  · rcases hs with ⟨h, -⟩ | ⟨-, hy, hx⟩
    · exact absurd h (by simp)
    · exact ⟨by omega, hx⟩
  · rcases hs with ⟨-, hx, hy⟩ | ⟨h, -⟩
    · exact ⟨by omega, hy⟩
    · exact absurd h (by simp)

theorem mem_iterate_word_spaces (g : Grid) (w : Word) (G' : Grid) :
    G' ∈ iterate_word_spaces g w ↔ ∃ s ∈ spaces_list g w, attempt_space g w s = some G' := by
  rw [iterate_word_spaces_eq, List.mem_filterMap]

theorem mem_iterate_word_spaces_randomly (g : Grid) (w : Word) (sh : List Space) (G' : Grid) :
    G' ∈ iterate_word_spaces_randomly g w sh ↔ ∃ s ∈ sh, attempt_space g w s = some G' := by
  unfold iterate_word_spaces_randomly
  rw [List.mem_filterMap]

theorem attempt_space_eq_some_iff (g : Grid) (w : Word) (s : Space) (G' : Grid) :
    attempt_space g w s = some G' ↔
      (insert_space g w s).1 = true ∧ (insert_space g w s).2 = G' := by
  unfold attempt_space
  split
  · simp_all
  · simp_all

theorem sound_of_attempt (g : Grid) (w : Word) (s : Space) (G' : Grid) (hrect : Rect g)
    (hin : inBoundsSpace g w s) (h : attempt_space g w s = some G') :
    placedAt G' w s ∧
      (∀ a b, ¬ covers w s a b → getCell G' a b = getCell g a b) ∧
      (∀ a b c, getCell g a b = some c → getCell G' a b = some c) ∧
      Rect G' ∧ gwidth G' = gwidth g ∧ gheight G' = gheight g ∧
      (∀ b, (G'.getD b []).length = (g.getD b []).length) := by
  obtain ⟨ht, hG⟩ := (attempt_space_eq_some_iff g w s G').mp h
  subst hG
  refine ⟨placedAt_insert_space g w s hrect hin ht,
    fun a b hc => getCell_insert_space_frame g w s a b hc,
    fun a b c hg => getCell_insert_space_mono g w s a b c hrect hin hg,
    rect_insert_space_snd g w s hrect,
    gwidth_insert_space_snd g w s,
    gheight_insert_space_snd g w s,
    fun b => rowlen_insert_space_snd g w s b⟩

theorem sound_of_mem_iterate (g : Grid) (w : Word) (G' : Grid) (hrect : Rect g)
    (h : G' ∈ iterate_word_spaces g w) :
    ∃ s, inBoundsSpace g w s ∧ placedAt G' w s ∧
      (∀ a b, ¬ covers w s a b → getCell G' a b = getCell g a b) ∧
      (∀ a b c, getCell g a b = some c → getCell G' a b = some c) ∧
      Rect G' ∧ gwidth G' = gwidth g ∧ gheight G' = gheight g ∧
      (∀ b, (G'.getD b []).length = (g.getD b []).length) := by
  obtain ⟨s, hs, hatt⟩ := (mem_iterate_word_spaces g w G').mp h
  have hin := inBoundsSpace_of_mem_spaces_list g w s hs
  exact ⟨s, hin, sound_of_attempt g w s G' hrect hin hatt⟩

theorem placedAt_mono (g1 g2 : Grid) (w : Word) (s : Space)
    (hmono : ∀ a b c, getCell g1 a b = some c → getCell g2 a b = some c)
    (h : placedAt g1 w s) : placedAt g2 w s := by
  rcases s with ⟨x, y, ori⟩
  cases ori
  · exact fun i hi => hmono _ _ _ (h i hi)
  · exact fun i hi => hmono _ _ _ (h i hi)

theorem inBoundsSpace_congr (g1 g2 : Grid) (w : Word) (s : Space)
    (hw : gwidth g1 = gwidth g2) (hh : gheight g1 = gheight g2)
    (h : inBoundsSpace g1 w s) : inBoundsSpace g2 w s := by
  rcases s with ⟨x, y, ori⟩
  cases ori
  · exact ⟨by rw [← hh]; exact h.1, by rw [← hw]; exact h.2⟩
  · exact ⟨by rw [← hw]; exact h.1, by rw [← hh]; exact h.2⟩

/-- The backtracking invariant of `insert_words`: a successful solve yields one
in-bounds anchor per word, each word's characters stand in the final grid, set
cells are preserved exactly, cells covered by no placed word are unchanged, and
the grid shape is unchanged. -/
theorem insert_words_spec (ws : List Word) :
    ∀ g G' : Grid, Rect g → insert_words g ws = some G' →
    ∃ ps : List Space,
      List.Forall₂ (fun w p => inBoundsSpace g w p ∧ placedAt G' w p) ws ps ∧
      (∀ a b c, getCell g a b = some c → getCell G' a b = some c) ∧
      (∀ a b, (∀ wp ∈ ws.zip ps, ¬ covers wp.1 wp.2 a b) → getCell G' a b = getCell g a b) ∧
      Rect G' ∧ gwidth G' = gwidth g ∧ gheight G' = gheight g := by
  induction ws with
  | nil =>
    intro g G' hrect h
    rw [insert_words] at h
    obtain rfl : g = G' := by simpa using h
    exact ⟨[], List.Forall₂.nil, fun a b c hc => hc, fun a b _ => rfl, hrect, rfl, rfl⟩
  | cons w ws ih =>
    intro g G' hrect h
    rw [insert_words] at h
    obtain ⟨g', hg'mem, hrec⟩ := List.exists_of_findSome?_eq_some h
    obtain ⟨s, hin, hplaced, hframe, hmono, hrect', hw', hh', -⟩ :=
      sound_of_mem_iterate g w g' hrect hg'mem
    obtain ⟨ps, hfa, hmono2, hframe2, hrectG, hwG, hhG⟩ := ih g' G' hrect' hrec
    refine ⟨s :: ps, ?_, ?_, ?_, hrectG, by rw [hwG, hw'], by rw [hhG, hh']⟩
    · refine List.Forall₂.cons ⟨hin, placedAt_mono g' G' w s hmono2 hplaced⟩ ?_
      exact hfa.imp fun {wi pi} hp =>
        ⟨inBoundsSpace_congr g' g wi pi hw' hh' hp.1, hp.2⟩
    · exact fun a b c hc => hmono2 a b c (hmono a b c hc)
    · intro a b hnc
      have h1 : getCell G' a b = getCell g' a b := by
        apply hframe2
        intro wp hwp
        exact hnc wp (by simpa using Or.inr hwp)
      have h2 : getCell g' a b = getCell g a b := by
        apply hframe
        exact hnc (w, s) (by simp)
      rw [h1, h2]

theorem insert_words_randomly_loop_some (oracle : Nat → List Space → List Space)
    (ws : List Word) (gs : List Grid) :
    ∀ n G' n', insert_words_randomly_loop oracle gs n ws = (some G', n') →
    ∃ g' ∈ gs, ∃ m m', insert_words_randomly oracle m g' ws = (some G', m') := by
  induction gs with
  | nil =>
    intro n G' n' h
    rw [insert_words_randomly_loop] at h
    simp at h
  | cons g gs ih =>
    intro n G' n' h
    rw [insert_words_randomly_loop] at h
    rcases hrec : insert_words_randomly oracle n g ws with ⟨o, m⟩
    rw [hrec] at h
    cases o with
    | some r =>
      simp only [Prod.mk.injEq, Option.some.injEq] at h
      exact ⟨g, by simp, n, m, by rw [hrec, h.1]⟩
    | none =>
      obtain ⟨g', hmem, m1, m2, h'⟩ := ih m G' n' h
      exact ⟨g', by simp [hmem], m1, m2, h'⟩

/-- The backtracking invariant of `insert_words_randomly`, for every shuffle
oracle whose outcomes are permutations of the anchor list it is given. -/
theorem insert_words_randomly_spec (oracle : Nat → List Space → List Space)
    (hor : ∀ n l, (oracle n l).Perm l) (ws : List Word) :
    ∀ (n : Nat) (g G' : Grid) (n' : Nat), Rect g →
    insert_words_randomly oracle n g ws = (some G', n') →
    ∃ ps : List Space,
      List.Forall₂ (fun w p => inBoundsSpace g w p ∧ placedAt G' w p) ws ps ∧
      (∀ a b c, getCell g a b = some c → getCell G' a b = some c) ∧
      (∀ a b, (∀ wp ∈ ws.zip ps, ¬ covers wp.1 wp.2 a b) → getCell G' a b = getCell g a b) ∧
      Rect G' ∧ gwidth G' = gwidth g ∧ gheight G' = gheight g := by
  induction ws with
  | nil =>
    intro n g G' n' hrect h
    rw [insert_words_randomly] at h
    obtain rfl : g = G' := by
      rw [Prod.mk.injEq] at h
      simpa using h.1
    exact ⟨[], List.Forall₂.nil, fun a b c hc => hc, fun a b _ => rfl, hrect, rfl, rfl⟩
  | cons w ws ih =>
    intro n g G' n' hrect h
    rw [insert_words_randomly] at h
    obtain ⟨g', hg'mem, m, m', hrec⟩ :=
      insert_words_randomly_loop_some oracle ws _ _ _ _ h
    obtain ⟨s, hsmem, hatt⟩ := (mem_iterate_word_spaces_randomly g w _ g').mp hg'mem
    have hs : s ∈ spaces_list g w := (hor n (spaces_list g w)).mem_iff.mp hsmem
    have hin := inBoundsSpace_of_mem_spaces_list g w s hs
    obtain ⟨hplaced, hframe, hmono, hrect', hw', hh', -⟩ :=
      sound_of_attempt g w s g' hrect hin hatt
    obtain ⟨ps, hfa, hmono2, hframe2, hrectG, hwG, hhG⟩ := ih m g' G' m' hrect' hrec
    refine ⟨s :: ps, ?_, ?_, ?_, hrectG, by rw [hwG, hw'], by rw [hhG, hh']⟩
    · refine List.Forall₂.cons ⟨hin, placedAt_mono g' G' w s hmono2 hplaced⟩ ?_
      exact hfa.imp fun {wi pi} hp =>
        ⟨inBoundsSpace_congr g' g wi pi hw' hh' hp.1, hp.2⟩
    · exact fun a b c hc => hmono2 a b c (hmono a b c hc)
    · intro a b hnc
      have h1 : getCell G' a b = getCell g' a b := by
        apply hframe2
        intro wp hwp
        exact hnc wp (by simpa using Or.inr hwp)
      have h2 : getCell g' a b = getCell g a b := by
        apply hframe
        exact hnc (w, s) (by simp)
      rw [h1, h2]

theorem getD_eq_getElem_of_lt {α : Type} (l : List α) (d : α) (i : Nat) (h : i < l.length) :
    l.getD i d = l[i] := by
  rw [List.getD_eq_getElem?_getD, List.getElem?_eq_getElem h]
  rfl

theorem grid_ext (g1 g2 : Grid) (hlen : g1.length = g2.length)
    (hrow : ∀ b, (g1.getD b []).length = (g2.getD b []).length)
    (hcell : ∀ a b, getCell g1 a b = getCell g2 a b) : g1 = g2 := by
  apply List.ext_getElem hlen
  intro b hb1 hb2
  have hr1 : g1.getD b [] = g1[b] := getD_eq_getElem_of_lt g1 [] b hb1
  have hr2 : g2.getD b [] = g2[b] := getD_eq_getElem_of_lt g2 [] b hb2
  apply List.ext_getElem
  · have := hrow b
    rwa [hr1, hr2] at this
  · intro a ha1 ha2
    have := hcell a b
    unfold getCell at this
    rw [hr1, hr2] at this
    rwa [getD_eq_getElem_of_lt _ none a ha1, getD_eq_getElem_of_lt _ none a ha2] at this

theorem placedAt_iff_cellOf (g : Grid) (w : Word) (s : Space) :
    placedAt g w s ↔
      ∀ i < w.length, getCell g (cellOf s i).1 (cellOf s i).2 = some (w.getD i 'a') := by
  rcases s with ⟨x, y, ori⟩
  cases ori <;> exact Iff.rfl

theorem covers_cellOf (w : Word) (s : Space) (i : Nat) (hi : i < w.length) :
    covers w s (cellOf s i).1 (cellOf s i).2 := by
  rw [covers_iff]
  exact ⟨i, hi, rfl⟩

/-- If both placements fit in sequence, the two words agree on every cell where
their footprints cross. -/
theorem crossing_chars_eq (g : Grid) (w1 w2 : Word) (s1 s2 : Space) (hrect : Rect g)
    (h1 : inBoundsSpace g w1 s1)
    (ht1 : (insert_space g w1 s1).1 = true)
    (ht2 : (insert_space (insert_space g w1 s1).2 w2 s2).1 = true)
    (a b : Nat) (hc1 : covers w1 s1 a b) (hc2 : covers w2 s2 a b) :
    charAt w1 s1 a b = charAt w2 s2 a b := by
  obtain ⟨i, hi, hcell1⟩ := (covers_iff w1 s1 a b).mp hc1
  obtain ⟨j, hj, hcell2⟩ := (covers_iff w2 s2 a b).mp hc2
  have hA1 : getCell (insert_space g w1 s1).2 a b = some (w1.getD i 'a') := by
    have := (placedAt_iff_cellOf _ w1 s1).mp (placedAt_insert_space g w1 s1 hrect h1 ht1) i hi
    rwa [hcell1] at this
  have := (insert_space_fst_iff _ w2 s2).mp ht2 j hj
  rw [hcell2] at this
  rcases this with h | h
  · rw [hA1] at h
    simp at h
  · rw [hA1] at h
    rw [charAt_eq_of_cellOf w1 s1 i a b hcell1, charAt_eq_of_cellOf w2 s2 j a b hcell2]
    exact Option.some_injective _ h

/-- If placing `w1` then `w2` both succeed, placing `w2` first also succeeds,
and then `w1` succeeds on the result. -/
theorem insert_space_comm_true (g : Grid) (w1 w2 : Word) (s1 s2 : Space) (hrect : Rect g)
    (h1 : inBoundsSpace g w1 s1) (h2 : inBoundsSpace g w2 s2)
    (ht1 : (insert_space g w1 s1).1 = true)
    (ht2 : (insert_space (insert_space g w1 s1).2 w2 s2).1 = true) :
    (insert_space g w2 s2).1 = true ∧
      (insert_space (insert_space g w2 s2).2 w1 s1).1 = true := by
  have hfit1 := (insert_space_fst_iff g w1 s1).mp ht1
  have hfit2 := (insert_space_fst_iff _ w2 s2).mp ht2
  have hplaced1 := (placedAt_iff_cellOf _ w1 s1).mp (placedAt_insert_space g w1 s1 hrect h1 ht1)
  have hb1 : (insert_space g w2 s2).1 = true := by
    rw [insert_space_fst_iff]
    intro j hj
    by_cases hcov : covers w1 s1 (cellOf s2 j).1 (cellOf s2 j).2
    · rcases hfit2 j hj with h | h
      · rw [getCell_insert_space_covered g w1 s1 _ _ hrect h1 ht1 hcov] at h
        simp at h
      · rw [getCell_insert_space_covered g w1 s1 _ _ hrect h1 ht1 hcov] at h
        have hc12 := Option.some_injective _ h
        obtain ⟨i, hi, hcell1⟩ := (covers_iff w1 s1 _ _).mp hcov
        have e1 : (cellOf s1 i).1 = (cellOf s2 j).1 := by rw [hcell1]
        have e2 : (cellOf s1 i).2 = (cellOf s2 j).2 := by rw [hcell1]
        rcases hfit1 i hi with hg | hg
        · left
          rw [e1, e2] at hg
          exact hg
        · right
          rw [e1, e2] at hg
          rw [hg]
          rw [← charAt_eq_of_cellOf w1 s1 i _ _ hcell1, hc12]
    · rcases hfit2 j hj with h | h
      · left
        rwa [getCell_insert_space_frame g w1 s1 _ _ hcov] at h
      · right
        rwa [getCell_insert_space_frame g w1 s1 _ _ hcov] at h
  refine ⟨hb1, ?_⟩
  rw [insert_space_fst_iff]
  intro i hi
  by_cases hcov : covers w2 s2 (cellOf s1 i).1 (cellOf s1 i).2
  · right
    rw [getCell_insert_space_covered g w2 s2 _ _ hrect h2 hb1 hcov]
    have hcr := crossing_chars_eq g w1 w2 s1 s2 hrect h1 ht1 ht2 _ _
      (covers_cellOf w1 s1 i hi) hcov
    rw [← hcr]
    have hch : charAt w1 s1 (cellOf s1 i).1 (cellOf s1 i).2 = w1.getD i 'a' :=
      charAt_eq_of_cellOf w1 s1 i (cellOf s1 i).1 (cellOf s1 i).2 rfl
    rw [hch]
  · rw [getCell_insert_space_frame g w2 s2 _ _ hcov]
    exact hfit1 i hi

theorem insert_space_comm_grid (g : Grid) (w1 w2 : Word) (s1 s2 : Space) (hrect : Rect g)
    (h1 : inBoundsSpace g w1 s1) (h2 : inBoundsSpace g w2 s2)
    (ht1 : (insert_space g w1 s1).1 = true)
    (ht2 : (insert_space (insert_space g w1 s1).2 w2 s2).1 = true) :
    (insert_space (insert_space g w1 s1).2 w2 s2).2 =
      (insert_space (insert_space g w2 s2).2 w1 s1).2 := by
  obtain ⟨hb1, hb2⟩ := insert_space_comm_true g w1 w2 s1 s2 hrect h1 h2 ht1 ht2
  have hrectA : Rect (insert_space g w1 s1).2 := rect_insert_space_snd g w1 s1 hrect
  have hrectB : Rect (insert_space g w2 s2).2 := rect_insert_space_snd g w2 s2 hrect
  have hinA2 : inBoundsSpace (insert_space g w1 s1).2 w2 s2 :=
    inBoundsSpace_congr g _ w2 s2 (gwidth_insert_space_snd g w1 s1).symm
      (gheight_insert_space_snd g w1 s1).symm h2
  have hinB1 : inBoundsSpace (insert_space g w2 s2).2 w1 s1 :=
    inBoundsSpace_congr g _ w1 s1 (gwidth_insert_space_snd g w2 s2).symm
      (gheight_insert_space_snd g w2 s2).symm h1
  apply grid_ext
  · show gheight _ = gheight _
    rw [gheight_insert_space_snd, gheight_insert_space_snd,
      gheight_insert_space_snd, gheight_insert_space_snd]
  · intro b
    rw [rowlen_insert_space_snd, rowlen_insert_space_snd,
      rowlen_insert_space_snd, rowlen_insert_space_snd]
  · intro a b
    by_cases hc1 : covers w1 s1 a b <;> by_cases hc2 : covers w2 s2 a b
    · rw [getCell_insert_space_covered _ w2 s2 a b hrectA hinA2 ht2 hc2,
        getCell_insert_space_covered _ w1 s1 a b hrectB hinB1 hb2 hc1,
        crossing_chars_eq g w1 w2 s1 s2 hrect h1 ht1 ht2 a b hc1 hc2]
    · rw [getCell_insert_space_frame _ w2 s2 a b hc2,
        getCell_insert_space_covered g w1 s1 a b hrect h1 ht1 hc1,
        getCell_insert_space_covered _ w1 s1 a b hrectB hinB1 hb2 hc1]
    · rw [getCell_insert_space_covered _ w2 s2 a b hrectA hinA2 ht2 hc2,
        getCell_insert_space_frame _ w1 s1 a b hc1,
        getCell_insert_space_covered g w2 s2 a b hrect h2 hb1 hc2]
    · rw [getCell_insert_space_frame _ w2 s2 a b hc2,
        getCell_insert_space_frame g w1 s1 a b hc1,
        getCell_insert_space_frame _ w1 s1 a b hc1,
        getCell_insert_space_frame g w2 s2 a b hc2]

theorem insert_space_idem (g : Grid) (w : Word) (s : Space) (hrect : Rect g)
    (hin : inBoundsSpace g w s) (ht : (insert_space g w s).1 = true) :
    (insert_space (insert_space g w s).2 w s).1 = true ∧
      (insert_space (insert_space g w s).2 w s).2 = (insert_space g w s).2 := by
  have hplaced := (placedAt_iff_cellOf _ w s).mp (placedAt_insert_space g w s hrect hin ht)
  have hrectA : Rect (insert_space g w s).2 := rect_insert_space_snd g w s hrect
  have hinA : inBoundsSpace (insert_space g w s).2 w s :=
    inBoundsSpace_congr g _ w s (gwidth_insert_space_snd g w s).symm
      (gheight_insert_space_snd g w s).symm hin
  have ht2 : (insert_space (insert_space g w s).2 w s).1 = true := by
    rw [insert_space_fst_iff]
    intro i hi
    exact Or.inr (hplaced i hi)
  refine ⟨ht2, ?_⟩
  apply grid_ext
  · show gheight _ = gheight _
    rw [gheight_insert_space_snd]
  · intro b
    rw [rowlen_insert_space_snd]
  · intro a b
    by_cases hcov : covers w s a b
    · rw [getCell_insert_space_covered _ w s a b hrectA hinA ht2 hcov,
        getCell_insert_space_covered g w s a b hrect hin ht hcov]
    · rw [getCell_insert_space_frame _ w s a b hcov]

theorem allEmpty_getCell (g : Grid) (h : AllEmpty g) (a b : Nat) : getCell g a b = none := by
  unfold getCell
  rcases hrow : g[b]? with _ | row
  · simp [List.getD_eq_getElem?_getD, hrow]
  · rcases hc : row[a]? with _ | c
    · simp [List.getD_eq_getElem?_getD, hrow, hc]
    · have hcnone : c = none := h row (List.getElem?_mem hrow) c (List.getElem?_mem hc)
      simp [List.getD_eq_getElem?_getD, hrow, hc, hcnone]

theorem spaces_list_no_horizontal (g : Grid) (w : Word) (hw : gwidth g < w.length) :
    ∀ s ∈ spaces_list g w, s.2.2 = false := by
  rintro ⟨x, y, ori⟩ hs
  rw [mem_spaces_list] at hs
  rcases hs with ⟨-, hx, -⟩ | ⟨h, -⟩
  · omega
  · exact h

theorem spaces_list_no_vertical (g : Grid) (w : Word) (hh : gheight g < w.length) :
    ∀ s ∈ spaces_list g w, s.2.2 = true := by
  rintro ⟨x, y, ori⟩ hs
  rw [mem_spaces_list] at hs
  rcases hs with ⟨h, -⟩ | ⟨-, hy, -⟩
  · exact h
  · omega

theorem spaces_list_nil_of_degenerate (g : Grid) (w : Word) (hne : w ≠ [])
    (h : gwidth g = 0 ∨ gheight g = 0) : spaces_list g w = [] := by
  have hlen : 0 < w.length := List.length_pos.mpr hne
  rw [List.eq_nil_iff_forall_not_mem]
  rintro ⟨x, y, ori⟩ hs
  rw [mem_spaces_list] at hs
  rcases hs with ⟨-, hx, hy⟩ | ⟨-, hy, hx⟩ <;> omega

theorem spaces_list_nil_of_long (g : Grid) (w : Word) (h1 : gwidth g < w.length)
    (h2 : gheight g < w.length) : spaces_list g w = [] := by
  rw [List.eq_nil_iff_forall_not_mem]
  rintro ⟨x, y, ori⟩ hs
  rw [mem_spaces_list] at hs
  rcases hs with ⟨-, hx, hy⟩ | ⟨-, hy, hx⟩ <;> omega

theorem iterate_word_spaces_nil_of_spaces_nil (g : Grid) (w : Word)
    (h : spaces_list g w = []) : iterate_word_spaces g w = [] := by
  rw [iterate_word_spaces_eq, h]
  rfl

theorem insert_words_none_of_mem_long (w : Word) (ws : List Word) :
    ∀ g : Grid, w ∈ ws → gwidth g < w.length → gheight g < w.length →
    insert_words g ws = none := by
  induction ws with
  | nil =>
    intro g hw _ _
    exact absurd hw (List.not_mem_nil w)
  | cons w' ws ih =>
    intro g hw hgw hgh
    rw [insert_words]
    rcases List.mem_cons.mp hw with rfl | hmem
    · rw [iterate_word_spaces_nil_of_spaces_nil g w (spaces_list_nil_of_long g w hgw hgh)]
      rfl
    · rw [List.findSome?_eq_none_iff]
      intro g' hg'
      obtain ⟨s, -, hatt⟩ := (mem_iterate_word_spaces g w' g').mp hg'
      obtain ⟨-, hG⟩ := (attempt_space_eq_some_iff g w' s g').mp hatt
      subst hG
      exact ih _ hmem (by rw [gwidth_insert_space_snd]; exact hgw)
        (by rw [gheight_insert_space_snd]; exact hgh)

theorem specAnchors_eq_spaces_list (g : Grid) (w : Word) (hne : w ≠ []) :
    specAnchors g w = spaces_list g w := by
  have hlen : 0 < w.length := List.length_pos.mpr hne
  unfold specAnchors spaces_list
  congr 1
  · congr 1
    split
    · congr 1
      omega
    · have h0 : gwidth g + 1 - w.length = 0 := by omega
      rw [h0]
      rfl
  · congr 1
    split
    · congr 1
      omega
    · have h0 : gheight g + 1 - w.length = 0 := by omega
      rw [h0]
      rfl

/-- C2: for an in-bounds anchor, `insert_word_horizontally` (resp.
`insert_word_vertically`) either returns `False` with the grid unchanged, or
returns `True` with the footprint holding exactly the word's characters and all
other cells unchanged; it returns `False` iff some footprint cell holds a
character different from the corresponding word character. -/
theorem claim_C2 (g : Grid) (w : Word) (x y : Nat) (hrect : Rect g) :
    ((y < gheight g ∧ x + w.length ≤ gwidth g) →
      ((insert_word_horizontally g w x y).1 = false →
        (insert_word_horizontally g w x y).2 = g) ∧
      ((insert_word_horizontally g w x y).1 = true →
        (∀ i < w.length,
          getCell (insert_word_horizontally g w x y).2 (x + i) y = some (w.getD i 'a')) ∧
        (∀ a b, ¬(b = y ∧ x ≤ a ∧ a < x + w.length) →
          getCell (insert_word_horizontally g w x y).2 a b = getCell g a b)) ∧
      ((insert_word_horizontally g w x y).1 = false ↔
        ∃ i < w.length, ∃ d, getCell g (x + i) y = some d ∧ d ≠ w.getD i 'a')) ∧
    ((x < gwidth g ∧ y + w.length ≤ gheight g) →
      ((insert_word_vertically g w x y).1 = false →
        (insert_word_vertically g w x y).2 = g) ∧
      ((insert_word_vertically g w x y).1 = true →
        (∀ i < w.length,
          getCell (insert_word_vertically g w x y).2 x (y + i) = some (w.getD i 'a')) ∧
        (∀ a b, ¬(a = x ∧ y ≤ b ∧ b < y + w.length) →
          getCell (insert_word_vertically g w x y).2 a b = getCell g a b)) ∧
      ((insert_word_vertically g w x y).1 = false ↔
        ∃ i < w.length, ∃ d, getCell g x (y + i) = some d ∧ d ≠ w.getD i 'a')) := by
  constructor
  · rintro ⟨hy, hx⟩
    refine ⟨?_, ?_, ?_⟩
    · intro hf
      exact insert_space_snd_of_false g w (x, y, true) hf
    · intro ht
      constructor
      · exact placedAt_insert_space g w (x, y, true) hrect ⟨hx, hy⟩ ht
      · intro a b hnc
        exact getCell_insert_space_frame g w (x, y, true) a b hnc
    · exact insert_space_fst_false_iff g w (x, y, true)
  · rintro ⟨hx, hy⟩
    refine ⟨?_, ?_, ?_⟩
    · intro hf
      exact insert_space_snd_of_false g w (x, y, false) hf
    · intro ht
      constructor
      · exact placedAt_insert_space g w (x, y, false) hrect ⟨hy, hx⟩ ht
      · intro a b hnc
        exact getCell_insert_space_frame g w (x, y, false) a b hnc
    · exact insert_space_fst_false_iff g w (x, y, false)

theorem claim_C2_witness :
    Rect (create_empty_grid 2 2) ∧
      ((0 < gheight (create_empty_grid 2 2) ∧
          0 + (['a', 'b'] : Word).length ≤ gwidth (create_empty_grid 2 2)) →
        ((insert_word_horizontally (create_empty_grid 2 2) ['a', 'b'] 0 0).1 = false →
          (insert_word_horizontally (create_empty_grid 2 2) ['a', 'b'] 0 0).2 =
            create_empty_grid 2 2) ∧
        ((insert_word_horizontally (create_empty_grid 2 2) ['a', 'b'] 0 0).1 = true →
          (∀ i < (['a', 'b'] : Word).length,
            getCell (insert_word_horizontally (create_empty_grid 2 2) ['a', 'b'] 0 0).2
              (0 + i) 0 = some ((['a', 'b'] : Word).getD i 'a')) ∧
          (∀ a b, ¬(b = 0 ∧ 0 ≤ a ∧ a < 0 + (['a', 'b'] : Word).length) →
            getCell (insert_word_horizontally (create_empty_grid 2 2) ['a', 'b'] 0 0).2 a b =
              getCell (create_empty_grid 2 2) a b)) ∧
        ((insert_word_horizontally (create_empty_grid 2 2) ['a', 'b'] 0 0).1 = false ↔
          ∃ i < (['a', 'b'] : Word).length, ∃ d,
            getCell (create_empty_grid 2 2) (0 + i) 0 = some d ∧
              d ≠ (['a', 'b'] : Word).getD i 'a')) :=
  ⟨by decide, ((claim_C2 (create_empty_grid 2 2) ['a', 'b'] 0 0 (by decide)).1)⟩

/-- C3: `iterate_word_spaces` yields exactly the successful placements, in the
order of the spec's anchor enumeration: horizontal anchors x-major y-minor,
then vertical anchors y-major x-minor. -/
theorem claim_C3 (g : Grid) (w : Word) (hrect : Rect g) (hne : w ≠ []) :
    iterate_word_spaces g w = (specAnchors g w).filterMap (attempt_space g w) := by
  rw [specAnchors_eq_spaces_list g w hne, iterate_word_spaces_eq]

theorem claim_C3_witness :
    Rect (create_empty_grid 2 2) ∧ (['a', 'b'] : Word) ≠ [] ∧
      iterate_word_spaces (create_empty_grid 2 2) ['a', 'b'] =
        (specAnchors (create_empty_grid 2 2) ['a', 'b']).filterMap
          (attempt_space (create_empty_grid 2 2) ['a', 'b']) :=
  ⟨by decide, by decide, claim_C3 (create_empty_grid 2 2) ['a', 'b'] (by decide) (by decide)⟩

/-- C4: for every shuffle outcome, the randomized enumerator yields the same
set of grids as the ordered enumerator. -/
theorem claim_C4 (g : Grid) (w : Word) (shuffled : List Space) (hrect : Rect g)
    (hperm : shuffled.Perm (spaces_list g w)) (G' : Grid) :
    G' ∈ iterate_word_spaces_randomly g w shuffled ↔ G' ∈ iterate_word_spaces g w := by
  rw [iterate_word_spaces_eq]
  exact (hperm.filterMap (attempt_space g w)).mem_iff

theorem claim_C4_witness :
    Rect (create_empty_grid 2 2) ∧
      (spaces_list (create_empty_grid 2 2) ['a', 'b']).Perm
        (spaces_list (create_empty_grid 2 2) ['a', 'b']) ∧
      (create_empty_grid 2 2 ∈ iterate_word_spaces_randomly (create_empty_grid 2 2) ['a', 'b']
          (spaces_list (create_empty_grid 2 2) ['a', 'b']) ↔
        create_empty_grid 2 2 ∈ iterate_word_spaces (create_empty_grid 2 2) ['a', 'b']) :=
  ⟨by decide, List.Perm.refl _,
    claim_C4 (create_empty_grid 2 2) ['a', 'b'] _ (by decide) (List.Perm.refl _)
      (create_empty_grid 2 2)⟩

/-- C5: every grid yielded by either enumerator is the base grid with the one
word placed at some in-bounds anchor: the footprint holds the word's
characters and every other cell equals the base grid's cell.  (The base grid
itself is never modified: the embedding is pure, mirroring the source's
per-attempt deep copies.) -/
theorem claim_C5 (g : Grid) (w : Word) (G' : Grid) (hrect : Rect g) (hne : w ≠ [])
    (h : G' ∈ iterate_word_spaces g w ∨
      ∃ shuffled, shuffled.Perm (spaces_list g w) ∧
        G' ∈ iterate_word_spaces_randomly g w shuffled) :
    ∃ s, inBoundsSpace g w s ∧ placedAt G' w s ∧
      ∀ a b, ¬ covers w s a b → getCell G' a b = getCell g a b := by
  rcases h with h | ⟨shuffled, hperm, h⟩
  · obtain ⟨s, hin, hplaced, hframe, -⟩ := sound_of_mem_iterate g w G' hrect h
    exact ⟨s, hin, hplaced, hframe⟩
  · obtain ⟨s, hs, hatt⟩ := (mem_iterate_word_spaces_randomly g w shuffled G').mp h
    have hin := inBoundsSpace_of_mem_spaces_list g w s (hperm.mem_iff.mp hs)
    obtain ⟨hplaced, hframe, -⟩ := sound_of_attempt g w s G' hrect hin hatt
    exact ⟨s, hin, hplaced, hframe⟩

theorem claim_C5_witness :
    Rect (create_empty_grid 2 2) ∧ (['a', 'b'] : Word) ≠ [] ∧
      ([[some 'a', some 'b'], [none, none]] : Grid) ∈
        iterate_word_spaces (create_empty_grid 2 2) ['a', 'b'] ∧
      ∃ s, inBoundsSpace (create_empty_grid 2 2) ['a', 'b'] s ∧
        placedAt [[some 'a', some 'b'], [none, none]] ['a', 'b'] s ∧
        ∀ a b, ¬ covers ['a', 'b'] s a b →
          getCell [[some 'a', some 'b'], [none, none]] a b =
            getCell (create_empty_grid 2 2) a b :=
  ⟨by decide, by decide, by decide,
    claim_C5 (create_empty_grid 2 2) ['a', 'b'] [[some 'a', some 'b'], [none, none]]
      (by decide) (by decide) (Or.inl (by decide))⟩

/-- C7: with an empty word list both solvers return the input grid itself,
distinct from the no-solution outcome `none`, for every grid including
zero-width and zero-height ones. -/
theorem claim_C7 (g : Grid) (oracle : Nat → List Space → List Space) (n : Nat) :
    insert_words g [] = some g ∧
      insert_words_randomly oracle n g [] = (some g, n) ∧
      insert_words g [] ≠ none ∧
      (insert_words_randomly oracle n g []).1 ≠ none := by
  refine ⟨by rw [insert_words], by rw [insert_words_randomly], ?_, ?_⟩
  · rw [insert_words]
    simp
  · rw [insert_words_randomly]
    simp

/-- C9: a successful placement is idempotent: repeating the same word at the
same anchor and orientation succeeds again and leaves the grid unchanged. -/
theorem claim_C9 (g : Grid) (w : Word) (s : Space) (hrect : Rect g)
    (hin : inBoundsSpace g w s) (ht : (insert_space g w s).1 = true) :
    (insert_space (insert_space g w s).2 w s).1 = true ∧
      (insert_space (insert_space g w s).2 w s).2 = (insert_space g w s).2 :=
  insert_space_idem g w s hrect hin ht

theorem claim_C9_witness :
    Rect (create_empty_grid 2 2) ∧
      inBoundsSpace (create_empty_grid 2 2) ['a', 'b'] (0, 0, true) ∧
      (insert_space (create_empty_grid 2 2) ['a', 'b'] (0, 0, true)).1 = true ∧
      ((insert_space (insert_space (create_empty_grid 2 2) ['a', 'b'] (0, 0, true)).2
          ['a', 'b'] (0, 0, true)).1 = true ∧
        (insert_space (insert_space (create_empty_grid 2 2) ['a', 'b'] (0, 0, true)).2
          ['a', 'b'] (0, 0, true)).2 =
          (insert_space (create_empty_grid 2 2) ['a', 'b'] (0, 0, true)).2) :=
  ⟨by decide, by decide, by decide,
    claim_C9 (create_empty_grid 2 2) ['a', 'b'] (0, 0, true) (by decide) (by decide) (by decide)⟩

theorem solver_output_empty (g G' : Grid) (ws : List Word) (ps : List Space)
    (hempty : AllEmpty g)
    (hfa : List.Forall₂ (fun w p => inBoundsSpace g w p ∧ placedAt G' w p) ws ps)
    (hframe : ∀ a b, (∀ wp ∈ ws.zip ps, ¬ covers wp.1 wp.2 a b) →
      getCell G' a b = getCell g a b) :
    (∀ wp ∈ ws.zip ps, ∀ a b, covers wp.1 wp.2 a b → ∃ c, getCell G' a b = some c) ∧
    (∀ a b, (∀ wp ∈ ws.zip ps, ¬ covers wp.1 wp.2 a b) → getCell G' a b = none) := by
  constructor
  · intro wp hwp a b hcov
    have hP := (List.forall₂_iff_zip.mp hfa).2 hwp
    obtain ⟨i, hi, hcell⟩ := (covers_iff wp.1 wp.2 a b).mp hcov
    have hpl := (placedAt_iff_cellOf G' wp.1 wp.2).mp hP.2 i hi
    have e1 : (cellOf wp.2 i).1 = a := by rw [hcell]
    have e2 : (cellOf wp.2 i).2 = b := by rw [hcell]
    rw [e1, e2] at hpl
    exact ⟨_, hpl⟩
  · intro a b hnc
    rw [hframe a b hnc, allEmpty_getCell g hempty a b]

/-- C1: on an all-empty rectangular grid, a successful solve (deterministic or
randomized, for any shuffle outcomes) places every word of the list on an
in-bounds horizontal or vertical run whose characters equal the word; every
cell covered by some word is set; every cell covered by no word is still
empty. -/
theorem claim_C1 (g : Grid) (ws : List Word) (hrect : Rect g) (hempty : AllEmpty g)
    (hwords : ∀ w ∈ ws, w ≠ []) :
    (∀ G', insert_words g ws = some G' →
      ∃ ps : List Space,
        List.Forall₂ (fun w p => inBoundsSpace g w p ∧ placedAt G' w p) ws ps ∧
        (∀ wp ∈ ws.zip ps, ∀ a b, covers wp.1 wp.2 a b → ∃ c, getCell G' a b = some c) ∧
        (∀ a b, (∀ wp ∈ ws.zip ps, ¬ covers wp.1 wp.2 a b) → getCell G' a b = none)) ∧
    (∀ oracle : Nat → List Space → List Space, (∀ m l, (oracle m l).Perm l) →
      ∀ n G' n', insert_words_randomly oracle n g ws = (some G', n') →
      ∃ ps : List Space,
        List.Forall₂ (fun w p => inBoundsSpace g w p ∧ placedAt G' w p) ws ps ∧
        (∀ wp ∈ ws.zip ps, ∀ a b, covers wp.1 wp.2 a b → ∃ c, getCell G' a b = some c) ∧
        (∀ a b, (∀ wp ∈ ws.zip ps, ¬ covers wp.1 wp.2 a b) → getCell G' a b = none)) := by
  constructor
  · intro G' h
    obtain ⟨ps, hfa, -, hframe, -⟩ := insert_words_spec ws g G' hrect h
    obtain ⟨hcov, hunc⟩ := solver_output_empty g G' ws ps hempty hfa hframe
    exact ⟨ps, hfa, hcov, hunc⟩
  · intro oracle hor n G' n' h
    obtain ⟨ps, hfa, -, hframe, -⟩ := insert_words_randomly_spec oracle hor ws n g G' n' hrect h
    obtain ⟨hcov, hunc⟩ := solver_output_empty g G' ws ps hempty hfa hframe
    exact ⟨ps, hfa, hcov, hunc⟩

theorem claim_C1_witness :
    Rect (create_empty_grid 3 3) ∧ AllEmpty (create_empty_grid 3 3) ∧
      (∀ w ∈ [(['c', 'a', 't'] : Word)], w ≠ []) ∧
      ((∀ G', insert_words (create_empty_grid 3 3) [['c', 'a', 't']] = some G' →
        ∃ ps : List Space,
          List.Forall₂
            (fun w p => inBoundsSpace (create_empty_grid 3 3) w p ∧ placedAt G' w p)
            [['c', 'a', 't']] ps ∧
          (∀ wp ∈ ([(['c', 'a', 't'] : Word)]).zip ps, ∀ a b, covers wp.1 wp.2 a b →
            ∃ c, getCell G' a b = some c) ∧
          (∀ a b, (∀ wp ∈ ([(['c', 'a', 't'] : Word)]).zip ps, ¬ covers wp.1 wp.2 a b) →
            getCell G' a b = none)) ∧
      (∀ oracle : Nat → List Space → List Space, (∀ m l, (oracle m l).Perm l) →
        ∀ n G' n',
          insert_words_randomly oracle n (create_empty_grid 3 3) [['c', 'a', 't']] =
            (some G', n') →
        ∃ ps : List Space,
          List.Forall₂
            (fun w p => inBoundsSpace (create_empty_grid 3 3) w p ∧ placedAt G' w p)
            [['c', 'a', 't']] ps ∧
          (∀ wp ∈ ([(['c', 'a', 't'] : Word)]).zip ps, ∀ a b, covers wp.1 wp.2 a b →
            ∃ c, getCell G' a b = some c) ∧
          (∀ a b, (∀ wp ∈ ([(['c', 'a', 't'] : Word)]).zip ps, ¬ covers wp.1 wp.2 a b) →
            getCell G' a b = none))) :=
  ⟨by decide, by decide, by decide,
    claim_C1 (create_empty_grid 3 3) [['c', 'a', 't']] (by decide) (by decide) (by decide)⟩

/-- C6: a word longer than the width admits no horizontal anchors, one longer
than the height no vertical anchors, and zero width or height no anchors at
all, so the enumerator yields nothing; a word of the list longer than both
dimensions makes the solver return the no-solution outcome, and in particular
`insert_words` on an empty 1-by-1 grid with the single word "back" returns
`none`. -/
theorem claim_C6 (g : Grid) (w : Word) (ws : List Word) :
    (gwidth g < w.length → ∀ s ∈ spaces_list g w, s.2.2 = false) ∧
    (gheight g < w.length → ∀ s ∈ spaces_list g w, s.2.2 = true) ∧
    (w ≠ [] → (gwidth g = 0 ∨ gheight g = 0) →
      spaces_list g w = [] ∧ iterate_word_spaces g w = []) ∧
    (Rect g → w ∈ ws → gwidth g < w.length → gheight g < w.length →
      insert_words g ws = none) ∧
    insert_words (create_empty_grid 1 1) [['b', 'a', 'c', 'k']] = none := by
  refine ⟨spaces_list_no_horizontal g w, spaces_list_no_vertical g w, ?_, ?_, ?_⟩
  · intro hne hdeg
    have h := spaces_list_nil_of_degenerate g w hne hdeg
    exact ⟨h, iterate_word_spaces_nil_of_spaces_nil g w h⟩
  · intro _ hmem h1 h2
    exact insert_words_none_of_mem_long w ws g hmem h1 h2
  · exact insert_words_none_of_mem_long ['b', 'a', 'c', 'k'] [['b', 'a', 'c', 'k']]
      (create_empty_grid 1 1) (by simp) (by decide) (by decide)

theorem claim_C6_witness :
    (∀ s ∈ spaces_list (create_empty_grid 1 1) ['b', 'a', 'c', 'k'], s.2.2 = false) ∧
      (spaces_list (create_empty_grid 0 2) ['b', 'a', 'c', 'k'] = [] ∧
        iterate_word_spaces (create_empty_grid 0 2) ['b', 'a', 'c', 'k'] = []) ∧
      insert_words (create_empty_grid 1 1) [['b', 'a', 'c', 'k']] = none :=
  ⟨(claim_C6 (create_empty_grid 1 1) ['b', 'a', 'c', 'k'] []).1 (by decide),
    (claim_C6 (create_empty_grid 0 2) ['b', 'a', 'c', 'k'] []).2.2.1 (by decide)
      (Or.inl (by decide)),
    (claim_C6 (create_empty_grid 1 1) ['b', 'a', 'c', 'k'] []).2.2.2.2⟩

/-- C8: placement order does not matter: for two in-bounds placements on a
rectangular grid, placing 1 then 2 has both inserts succeed iff placing 2 then
1 does, and in that case the two resulting grids are equal. -/
theorem claim_C8 (g : Grid) (w1 w2 : Word) (s1 s2 : Space) (hrect : Rect g)
    (h1 : inBoundsSpace g w1 s1) (h2 : inBoundsSpace g w2 s2) :
    (((insert_space g w1 s1).1 = true ∧
        (insert_space (insert_space g w1 s1).2 w2 s2).1 = true) ↔
      ((insert_space g w2 s2).1 = true ∧
        (insert_space (insert_space g w2 s2).2 w1 s1).1 = true)) ∧
    (((insert_space g w1 s1).1 = true ∧
        (insert_space (insert_space g w1 s1).2 w2 s2).1 = true) →
      (insert_space (insert_space g w1 s1).2 w2 s2).2 =
        (insert_space (insert_space g w2 s2).2 w1 s1).2) := by
  constructor
  · constructor
    · rintro ⟨ht1, ht2⟩
      exact insert_space_comm_true g w1 w2 s1 s2 hrect h1 h2 ht1 ht2
    · rintro ⟨ht1, ht2⟩
      exact insert_space_comm_true g w2 w1 s2 s1 hrect h2 h1 ht1 ht2
  · rintro ⟨ht1, ht2⟩
    exact insert_space_comm_grid g w1 w2 s1 s2 hrect h1 h2 ht1 ht2

theorem claim_C8_witness :
    Rect (create_empty_grid 3 3) ∧
      inBoundsSpace (create_empty_grid 3 3) ['c', 'a', 't'] (0, 0, true) ∧
      inBoundsSpace (create_empty_grid 3 3) ['c', 'o', 'w'] (0, 0, false) ∧
      ((((insert_space (create_empty_grid 3 3) ['c', 'a', 't'] (0, 0, true)).1 = true ∧
          (insert_space (insert_space (create_empty_grid 3 3) ['c', 'a', 't'] (0, 0, true)).2
            ['c', 'o', 'w'] (0, 0, false)).1 = true) ↔
        ((insert_space (create_empty_grid 3 3) ['c', 'o', 'w'] (0, 0, false)).1 = true ∧
          (insert_space (insert_space (create_empty_grid 3 3) ['c', 'o', 'w'] (0, 0, false)).2
            ['c', 'a', 't'] (0, 0, true)).1 = true)) ∧
      (((insert_space (create_empty_grid 3 3) ['c', 'a', 't'] (0, 0, true)).1 = true ∧
          (insert_space (insert_space (create_empty_grid 3 3) ['c', 'a', 't'] (0, 0, true)).2
            ['c', 'o', 'w'] (0, 0, false)).1 = true) →
        (insert_space (insert_space (create_empty_grid 3 3) ['c', 'a', 't'] (0, 0, true)).2
          ['c', 'o', 'w'] (0, 0, false)).2 =
          (insert_space (insert_space (create_empty_grid 3 3) ['c', 'o', 'w'] (0, 0, false)).2
            ['c', 'a', 't'] (0, 0, true)).2)) :=
  ⟨by decide, by decide, by decide,
    claim_C8 (create_empty_grid 3 3) ['c', 'a', 't'] ['c', 'o', 'w'] (0, 0, true) (0, 0, false)
      (by decide) (by decide) (by decide)⟩

/-- C10: a set cell always keeps exactly its character: through a single
in-bounds call of `insert_word_horizontally` or `insert_word_vertically`
(whatever it returns), and through a successful `insert_words` or
`insert_words_randomly` — the docstring's warning that existing contents "may
be overwritten" notwithstanding. -/
theorem claim_C10 (g : Grid) (w : Word) (x y : Nat) (ws : List Word)
    (oracle : Nat → List Space → List Space)
    (hrect : Rect g) (hor : ∀ m l, (oracle m l).Perm l) :
    ((y < gheight g ∧ x + w.length ≤ gwidth g) →
      ∀ a b c, getCell g a b = some c →
        getCell (insert_word_horizontally g w x y).2 a b = some c) ∧
    ((x < gwidth g ∧ y + w.length ≤ gheight g) →
      ∀ a b c, getCell g a b = some c →
        getCell (insert_word_vertically g w x y).2 a b = some c) ∧
    (∀ G', insert_words g ws = some G' →
      ∀ a b c, getCell g a b = some c → getCell G' a b = some c) ∧
    (∀ m G' n', insert_words_randomly oracle m g ws = (some G', n') →
      ∀ a b c, getCell g a b = some c → getCell G' a b = some c) := by
  refine ⟨?_, ?_, ?_, ?_⟩
  · rintro ⟨hy, hx⟩ a b c hc
    exact getCell_insert_space_mono g w (x, y, true) a b c hrect ⟨hx, hy⟩ hc
  · rintro ⟨hx, hy⟩ a b c hc
    exact getCell_insert_space_mono g w (x, y, false) a b c hrect ⟨hy, hx⟩ hc
  · intro G' h a b c hc
    obtain ⟨ps, -, hmono, -⟩ := insert_words_spec ws g G' hrect h
    exact hmono a b c hc
  · intro m G' n' h a b c hc
    obtain ⟨ps, -, hmono, -⟩ := insert_words_randomly_spec oracle hor ws m g G' n' hrect h
    exact hmono a b c hc

theorem claim_C10_witness :
    Rect ([[some 'q', none], [none, none]] : Grid) ∧
      (∀ m l, (((fun _ l => l) : Nat → List Space → List Space) m l).Perm l) ∧
      (((0 < gheight ([[some 'q', none], [none, none]] : Grid) ∧
          0 + (['a', 'b'] : Word).length ≤ gwidth ([[some 'q', none], [none, none]] : Grid)) →
        ∀ a b c, getCell [[some 'q', none], [none, none]] a b = some c →
          getCell (insert_word_horizontally [[some 'q', none], [none, none]] ['a', 'b'] 0 0).2
            a b = some c) ∧
      ((0 < gwidth ([[some 'q', none], [none, none]] : Grid) ∧
          0 + (['a', 'b'] : Word).length ≤ gheight ([[some 'q', none], [none, none]] : Grid)) →
        ∀ a b c, getCell [[some 'q', none], [none, none]] a b = some c →
          getCell (insert_word_vertically [[some 'q', none], [none, none]] ['a', 'b'] 0 0).2
            a b = some c) ∧
      (∀ G', insert_words [[some 'q', none], [none, none]] [['a', 'b']] = some G' →
        ∀ a b c, getCell [[some 'q', none], [none, none]] a b = some c →
          getCell G' a b = some c) ∧
      (∀ m G' n',
        insert_words_randomly ((fun _ l => l) : Nat → List Space → List Space) m
          [[some 'q', none], [none, none]] [['a', 'b']] = (some G', n') →
        ∀ a b c, getCell [[some 'q', none], [none, none]] a b = some c →
          getCell G' a b = some c)) :=
  ⟨by decide, fun _ l => List.Perm.refl l,
    claim_C10 [[some 'q', none], [none, none]] ['a', 'b'] 0 0 [['a', 'b']]
      (fun _ l => l) (by decide) (fun _ l => List.Perm.refl l)⟩

end Wordsearch
